import Mathlib

/-!
Verification development for the Visual-Reading speed-reading application.

The definitions below are shallow embeddings of the TypeScript source:
  * `src/App.tsx` — the playback clock (`tick`, `handleSeek`, `handleReset`,
    `requestPlayback`), the tokenizer (`words` memo), the session recorder
    effect, and the keyboard dispatch chain (`handleKeyDown`);
  * `src/components/PomodoroTimer.tsx` — the focus/break timer machine;
  * `src/components/SettingsPanel.tsx` — the rate (wpm) input handlers;
  * `src/components/SleepTimer.tsx` — the sleep-timer selection handlers.

Machine numbers of the source are JS doubles holding small integers; they
are embedded as `Int`/`Nat`.  Stateful React components are embedded as
explicit state records with pure transition functions.
-/

namespace VisualReading

/-! ## Playback clock state (App.tsx)

`isPlaying` and `currentIndex` are the two `useState` cells of `App`;
`len` stands for `words.length`.  The cursor is an integer in the source
(it takes the value `-1` for "not started"), hence `Int` here. -/

structure PlayState where
  isPlaying : Bool
  currentIndex : Int
  deriving Repr, DecidableEq

/-- The interval callback of the timer effect (App.tsx lines 158-166):
`setCurrentIndex(prev => { if (prev >= words.length - 1) { setIsPlaying(false); return prev; } return prev + 1; })`. -/
def tick (len : Nat) (s : PlayState) : PlayState :=
  if s.currentIndex ≥ (len : Int) - 1 then
    { s with isPlaying := false }
  else
    { s with currentIndex := s.currentIndex + 1 }

/-- `handleSeek` (App.tsx lines 182-184): `setCurrentIndex(index)` — the
index is stored directly, with no clamping and no change to `isPlaying`. -/
def handleSeek (index : Int) (s : PlayState) : PlayState :=
  { s with currentIndex := index }

/-- `handleReset` (App.tsx lines 177-180). -/
def handleReset (_s : PlayState) : PlayState :=
  { isPlaying := false, currentIndex := -1 }

/-- The app is either in the text editor or in the reader view. -/
inductive AppMode where
  | edit
  | read
  deriving Repr, DecidableEq

/-- `requestPlayback` (App.tsx lines 187-207), collapsed over the queued
`setTimeout(() => setIsPlaying(true), …)`: the function returns the mode
and playback state once the queued update has applied. -/
def requestPlayback (len : Nat) (shouldPlay : Bool) (mode : AppMode)
    (s : PlayState) : AppMode × PlayState :=
  if shouldPlay then
    if mode = AppMode.edit then
      (AppMode.read, { handleReset s with isPlaying := true })
    else if s.currentIndex ≥ (len : Int) - 1 then
      (mode, { handleReset s with isPlaying := true })
    else
      (mode, { s with isPlaying := true })
  else
    (mode, { s with isPlaying := false })

/-- The clamp the specification ascribes to `seek`: index forced into
`[-1, len-1]`.  Stated from the spec's words, to be compared with
`handleSeek` above. -/
def specSeekClamp (len : Nat) (index : Int) : Int :=
  max (-1) (min index ((len : Int) - 1))

/-- `handleSeekInternal` of the progress bar
(ReaderDisplay.tsx lines 95-109), over exact rationals in place of JS
doubles: guard `totalWords <= 1`, normalize the click position, mirror it
for RTL, clamp to `[0,1]` and floor onto `[0, totalWords-1]`.  Returns
`none` when the guard returns without seeking. -/
def handleSeekInternal (clientX rectLeft width : ℚ) (totalWords : Nat) :
    Option Int :=
  if totalWords ≤ 1 then none
  else
    let x := clientX - rectLeft
    let normalizedPos := x / width
    let percentage := max 0 (min 1 (1 - normalizedPos))
    some ⌊percentage * ((totalWords : ℚ) - 1)⌋

/-! ## Tokenizer (App.tsx lines 147-149)

`inputText.trim().split(/\s+/).filter(w => w.length > 0)`, over `List Char`
in place of JS strings. -/

/-- The character class `\s` of JS regular expressions (also the set
`String.prototype.trim` removes). -/
def jsWhitespace (c : Char) : Bool :=
  c == ' ' || c == '\t' || c == '\n' || c == '\r' || c == '\x0b' || c == '\x0c' ||
  c == '\u00A0' || c == '\u1680' || ('\u2000' ≤ c && c ≤ '\u200A') ||
  c == '\u2028' || c == '\u2029' || c == '\u202F' || c == '\u205F' ||
  c == '\u3000' || c == '\uFEFF'

/-- `String.prototype.trim`: strip leading and trailing whitespace. -/
def jsTrim (s : List Char) : List Char :=
  ((s.dropWhile jsWhitespace).reverse.dropWhile jsWhitespace).reverse

/-- Regex split on one-or-more separator characters (`split(/\s+/)` for
`p = jsWhitespace`), as a one-pass state machine: `acc` is the current
(reversed) chunk, `lastSep` records whether the previous character belonged
to a separator run (so further separator characters extend the same
separator instead of producing empty chunks).  As in JS, an empty chunk
appears before a leading separator and after a trailing one. -/
def splitSepRunsAux (p : Char → Bool) : List Char → List Char → Bool → List (List Char)
  | [], acc, _ => [acc.reverse]
  | c :: rest, acc, lastSep =>
    if p c then
      if lastSep then splitSepRunsAux p rest acc true
      else acc.reverse :: splitSepRunsAux p rest [] true
    else splitSepRunsAux p rest (c :: acc) false

/-- `String.prototype.split(/\s+/)`. -/
def splitWsRuns (s : List Char) : List (List Char) :=
  splitSepRunsAux jsWhitespace s [] false

/-- The pieces of a separator-run split that follow the first separator
run: empty on the empty remainder, otherwise a fresh split after the
current separator run. -/
def splitTail (p : Char → Bool) : List Char → List (List Char)
  | [] => []
  | _ :: rest => splitSepRunsAux p (rest.dropWhile p) [] false

/-- The `words` memo of App.tsx:
`inputText.trim().split(/\s+/).filter(w => w.length > 0)`. -/
def words (s : List Char) : List (List Char) :=
  (splitWsRuns (jsTrim s)).filter (fun w => decide (0 < w.length))

/-- The ordered sequence of maximal runs of non-`p` characters of a string:
skip separator characters, then each run is the longest non-separator
prefix, taken verbatim. -/
def runsOf (p : Char → Bool) : List Char → List (List Char)
  | [] => []
  | c :: rest =>
    if p c then runsOf p rest
    else (c :: rest.takeWhile (fun d => !p d)) ::
         runsOf p (rest.dropWhile (fun d => !p d))
termination_by l => l.length
decreasing_by
  · simp
  · simp only [List.length_cons]
    have := (List.dropWhile_sublist (l := rest) (p := fun d => !p d)).length_le
    omega

/-- The sequence of maximal non-whitespace runs, written from the spec's
words ("split on one-or-more whitespace characters; discard empty results;
preserve original order; no normalization"). -/
def maximalRuns (s : List Char) : List (List Char) :=
  runsOf jsWhitespace s

/-! ## Session recorder (App.tsx lines 117-144) -/

/-- A `ReadingSession` record (types.ts): `id` is `Date.now().toString()`,
kept as the numeric timestamp; `duration` is `(Date.now() - start) / 1000`
seconds, an exact rational here. -/
structure ReadingSession where
  id : Nat
  date : Nat
  duration : ℚ
  wordsRead : Int
  wpm : Int
  deriving Repr, DecidableEq

/-- The two refs and the `sessions` state cell of the recording effect. -/
structure RecorderState where
  sessionStartTime : Option Nat
  startWordIndex : Int
  sessions : List ReadingSession
  deriving Repr, DecidableEq

/-- One run of the session-recording effect (App.tsx lines 120-144), fired
on a change of `isPlaying`; `now` is `Date.now()` in ms (the source's
truthiness test `if (sessionStartTime.current)` is embedded as the `Option`
match; `Date.now()` is never the falsy `0`). -/
def recordEffect (isPlaying : Bool) (now : Nat) (currentIndex : Int)
    (wpm : Int) (r : RecorderState) : RecorderState :=
  if isPlaying then
    { r with sessionStartTime := some now, startWordIndex := currentIndex }
  else
    match r.sessionStartTime with
    | some t0 =>
      let duration : ℚ := ((now : ℚ) - (t0 : ℚ)) / 1000
      let wordsRead : Int := max 0 (currentIndex - r.startWordIndex)
      if 0 < wordsRead then
        { sessionStartTime := none,
          startWordIndex := r.startWordIndex,
          sessions := r.sessions ++
            [{ id := now, date := now, duration := duration,
               wordsRead := wordsRead, wpm := wpm }] }
      else
        { r with sessionStartTime := none }
    | none => r

/-! ## JS `parseInt` (used by PomodoroTimer.tsx and SleepTimer.tsx)

Decimal parse: skip leading whitespace, optional sign, then the maximal
digit prefix; `none` is `NaN`.  (The `0x` radix prefix of the builtin
cannot arise here: both call sites read `<input type="number">` fields.) -/

/-- Numeric value of a decimal digit string (most significant first). -/
def digitsToNat (ds : List Char) : Nat :=
  ds.foldl (fun n c => 10 * n + (c.toNat - '0'.toNat)) 0

/-- `parseInt(s)` (radix 10). -/
def jsParseInt (s : List Char) : Option Int :=
  let s1 := s.dropWhile jsWhitespace
  let signAndRest : Int × List Char :=
    match s1 with
    | '-' :: rest => (-1, rest)
    | '+' :: rest => (1, rest)
    | _ => (1, s1)
  let ds := signAndRest.2.takeWhile (fun c => '0' ≤ c && c ≤ '9')
  if ds.isEmpty then none
  else some (signAndRest.1 * (digitsToNat ds : Int))

/-- The spec's acceptance condition for a custom duration, from its words:
the input "denotes a positive integer number of minutes" — a nonempty
all-digit numeral of positive value. -/
def denotesPosIntMinutes (s : List Char) : Bool :=
  !s.isEmpty && s.all (fun c => '0' ≤ c && c ≤ '9') &&
    decide (0 < digitsToNat s)

/-! ## Focus/break timer (PomodoroTimer.tsx) -/

/-- `PomodoroMode` (types.ts). -/
inductive PomodoroMode where
  | focus
  | short
  | long
  | custom
  deriving Repr, DecidableEq

/-- The `MODES` record (PomodoroTimer.tsx lines 17-22); `custom` is the
mutable slot `MODES.custom`. -/
structure PomodoroDurations where
  focus : Nat
  short : Nat
  long : Nat
  custom : Nat
  deriving Repr, DecidableEq

/-- Initial value of `MODES`. -/
def defaultMODES : PomodoroDurations :=
  { focus := 25 * 60, short := 5 * 60, long := 15 * 60, custom := 30 * 60 }

/-- `MODES[mode]`. -/
def modeDuration (d : PomodoroDurations) : PomodoroMode → Nat
  | PomodoroMode.focus => d.focus
  | PomodoroMode.short => d.short
  | PomodoroMode.long => d.long
  | PomodoroMode.custom => d.custom

/-- The `mode`, `timeLeft` and `isActive` cells of the pomodoro timer. -/
structure PomoState where
  mode : PomodoroMode
  timeLeft : Nat
  isActive : Bool
  deriving Repr, DecidableEq

/-- The mode-change reset effect (PomodoroTimer.tsx lines 33-36):
`setTimeLeft(MODES[mode]); setIsActive(false)`. -/
def modeChangeReset (d : PomodoroDurations) (m : PomodoroMode)
    (_p : PomoState) : PomoState :=
  { mode := m, timeLeft := modeDuration d m, isActive := false }

/-- The playback-sync effect (PomodoroTimer.tsx lines 39-57), run after
`isPlaying` changes: returns the updated state and an optional mode-change
request raised through `onModeChange`. -/
def syncPlayback (isPlaying : Bool) (p : PomoState) :
    PomoState × Option PomodoroMode :=
  if isPlaying then
    if p.mode = PomodoroMode.short ∨ p.mode = PomodoroMode.long then
      (p, some PomodoroMode.focus)
    else
      ({ p with isActive := true }, none)
  else
    if p.mode = PomodoroMode.focus ∨ p.mode = PomodoroMode.custom then
      ({ p with isActive := false }, none)
    else
      (p, none)

/-- The external playback commands the timer raises via
`onRequestPlayback`. -/
inductive PlaybackSignal where
  | stop
  | start
  deriving Repr, DecidableEq

/-- `handleTimerComplete` (PomodoroTimer.tsx lines 75-93) together with the
effect cascade it triggers: on focus/custom completion it raises
`onRequestPlayback(false)`, switches the mode to `short` (which runs the
reset effect and the stopped-playback sync), then the queued
`setTimeout(() => setIsActive(true), 100)` starts the break countdown;
on break completion it switches to `focus` and raises
`onRequestPlayback(true)`, whose playing sync starts the countdown. -/
def handleTimerComplete (d : PomodoroDurations) (p : PomoState) :
    PomoState × List PlaybackSignal :=
  if p.mode = PomodoroMode.focus ∨ p.mode = PomodoroMode.custom then
    let p1 := modeChangeReset d PomodoroMode.short p
    let p2 := (syncPlayback false p1).1
    ({ p2 with isActive := true }, [PlaybackSignal.stop])
  else
    let p1 := modeChangeReset d PomodoroMode.focus p
    let p2 := (syncPlayback true p1).1
    (p2, [PlaybackSignal.start])

/-- `handleCustomTimeSubmit` (PomodoroTimer.tsx lines 129-138):
`parseInt(customInput)`; when the result is a number `> 0`, write
`MODES.custom = minutes * 60` and switch to the custom mode (second
component `true`); otherwise no state changes. -/
def handleCustomTimeSubmit (customInput : List Char)
    (d : PomodoroDurations) : PomodoroDurations × Bool :=
  match jsParseInt customInput with
  | some minutes =>
    if 0 < minutes then ({ d with custom := minutes.toNat * 60 }, true)
    else (d, false)
  | none => (d, false)

/-! ## Rate (wpm) handlers (SettingsPanel.tsx, App.tsx) -/

/-- `handleWpmInputChange` (SettingsPanel.tsx lines 26-31): the typed value
is clamped by two sequential conditionals. -/
def handleWpmInputChange (v : Int) : Int :=
  let v1 := if v < 60 then 60 else v
  let v2 := if v1 > 1000 then 1000 else v1
  v2

/-- `handleWpmChange` (SettingsPanel.tsx lines 20-24): the slider value is
stored unchanged; the `<input type="range" min="60" max="1000">` element
only produces values in `[60, 1000]`. -/
def handleWpmChange (v : Int) : Int :=
  v

/-- The `incSpeed` branch of `handleKeyDown` (App.tsx lines 287-290). -/
def incSpeed (wpm : Int) : Int :=
  min 1000 (wpm + 20)

/-- The `decSpeed` branch of `handleKeyDown` (App.tsx lines 291-294). -/
def decSpeed (wpm : Int) : Int :=
  max 60 (wpm - 20)

/-! ## Sleep timer

`SleepTimer.tsx` only renders the menu and raises `onSetTimer`; the
component owning `timeLeft` and the countdown is not among the source
files, so the countdown is modelled from the spec (§4.5). -/

/-- `handleCustomSubmit` of SleepTimer.tsx (lines 35-44): `parseInt` the
typed minutes and accept only values `> 0`; the accepted value is the
argument passed to `onSetTimer`. -/
def sleepCustomSubmit (customValue : List Char) : Option Int :=
  match jsParseInt customValue with
  | some mins => if 0 < mins then some mins else none
  | none => none

/-- Modelled from the spec: the sleep-timer state owner (the component
wiring `onSetTimer`/`timeLeft` of SleepTimer.tsx) is missing from the
source files.  Spec §4.5: `set(minutes | null)` — `null` cancels,
otherwise it initializes a one-shot countdown in seconds, replacing any
active countdown outright (no accumulation).  The previous state is
ignored by construction. -/
def sleepSet (minutes : Option Nat) (_prev : Option Nat) : Option Nat :=
  match minutes with
  | none => none
  | some m => some (m * 60)

/-- Modelled from the spec: one 1-second tick of the sleep countdown
(§4.5): it ticks down every second regardless of playback; on reaching
zero it fires a forced stop (second component `true`) and resets the state
to "off" (`none`). -/
def sleepTick : Option Nat → Option Nat × Bool
  | none => (none, false)
  | some n => if n - 1 = 0 then (none, true) else (some (n - 1), false)

/-- Events of the combined sleep-timer/playback system: a 1-second sleep
tick, or a user pause/resume intent routed through `requestPlayback`. -/
inductive SleepEv where
  | second
  | setPlay (b : Bool)
  deriving Repr, DecidableEq

/-- Combined state: the sleep countdown, the playback state, and how many
forced stops the sleep timer has fired. -/
structure SleepSystem where
  sleep : Option Nat
  play : PlayState
  stops : Nat
  deriving Repr, DecidableEq

/-- Modelled from the spec: one event of the combined system.  A firing
sleep tick forces playback off through `requestPlayback false` (the app's
stop primitive); play/pause events touch only the playback state. -/
def sleepStep (len : Nat) (mode : AppMode) : SleepEv → SleepSystem → SleepSystem
  | SleepEv.second, st =>
    let t := sleepTick st.sleep
    if t.2 then
      { sleep := t.1,
        play := (requestPlayback len false mode st.play).2,
        stops := st.stops + 1 }
    else
      { st with sleep := t.1 }
  | SleepEv.setPlay b, st =>
    { st with play := (requestPlayback len b mode st.play).2 }

/-- Run of the combined system over an event list. -/
def sleepRun (len : Nat) (mode : AppMode) : List SleepEv → SleepSystem → SleepSystem
  | [], st => st
  | e :: es, st => sleepRun len mode es (sleepStep len mode e st)

/-- Number of 1-second ticks in an event list. -/
def countSeconds (evs : List SleepEv) : Nat :=
  (evs.filter (fun e => e = SleepEv.second)).length

/-! ## Keyboard dispatch chain (App.tsx lines 251-374) -/

/-- The closed action set of `handleKeyDown`, one constructor per branch,
in source order. -/
inductive Action where
  | togglePlay
  | reset
  | prevWord
  | nextWord
  | incFontSize
  | decFontSize
  | incSpeed
  | decSpeed
  | toggleFullscreenApp
  | toggleFullscreenReader
  | incBrightness
  | decBrightness
  | nextFont
  | nextColor
  | incGlow
  | decGlow
  | toggleBold
  | toggleLang
  | nextMode
  | toggleEdit
  | clearText
  | togglePomodoro
  | toggleLibrary
  | toggleShortcuts
  | toggleStats
  deriving Repr, DecidableEq

/-- `ShortcutMap` (types.ts): one key identifier per action. -/
structure ShortcutMap where
  togglePlay : List Char
  prevWord : List Char
  nextWord : List Char
  incFontSize : List Char
  decFontSize : List Char
  incSpeed : List Char
  decSpeed : List Char
  toggleFullscreenApp : List Char
  toggleFullscreenReader : List Char
  incBrightness : List Char
  decBrightness : List Char
  reset : List Char
  nextFont : List Char
  nextColor : List Char
  incGlow : List Char
  decGlow : List Char
  toggleBold : List Char
  toggleLang : List Char
  nextMode : List Char
  toggleEdit : List Char
  clearText : List Char
  togglePomodoro : List Char
  toggleLibrary : List Char
  toggleShortcuts : List Char
  toggleStats : List Char
  deriving Repr, DecidableEq

/-- The `matches` helper of `handleKeyDown` (App.tsx lines 260-265): a
single-character binding that is a cased letter compares case-insensitively
(`lowerKey === targetKey.toLowerCase()`); everything else compares exactly.
`Char.toLower`/`Char.toUpper` stand for the JS methods (they agree on the
ASCII key identifiers the app binds). -/
def matchesKey (key : List Char) (targetKey : List Char) : Bool :=
  match targetKey with
  | [t] =>
    if Char.toLower t ≠ Char.toUpper t then
      key.map Char.toLower == [Char.toLower t]
    else
      key == targetKey
  | _ => key == targetKey

/-- The dispatch chain of `handleKeyDown` (App.tsx lines 267-373): the
`else if` cascade, one `(action, binding)` entry per branch, in declaration
order — `togglePlay` first, `toggleStats` last. -/
def dispatchChain (sc : ShortcutMap) : List (Action × List Char) :=
  [(Action.togglePlay, sc.togglePlay),
   (Action.reset, sc.reset),
   (Action.prevWord, sc.prevWord),
   (Action.nextWord, sc.nextWord),
   (Action.incFontSize, sc.incFontSize),
   (Action.decFontSize, sc.decFontSize),
   (Action.incSpeed, sc.incSpeed),
   (Action.decSpeed, sc.decSpeed),
   (Action.toggleFullscreenApp, sc.toggleFullscreenApp),
   (Action.toggleFullscreenReader, sc.toggleFullscreenReader),
   (Action.incBrightness, sc.incBrightness),
   (Action.decBrightness, sc.decBrightness),
   (Action.nextFont, sc.nextFont),
   (Action.nextColor, sc.nextColor),
   (Action.incGlow, sc.incGlow),
   (Action.decGlow, sc.decGlow),
   (Action.toggleBold, sc.toggleBold),
   (Action.toggleLang, sc.toggleLang),
   (Action.nextMode, sc.nextMode),
   (Action.toggleEdit, sc.toggleEdit),
   (Action.clearText, sc.clearText),
   (Action.togglePomodoro, sc.togglePomodoro),
   (Action.toggleLibrary, sc.toggleLibrary),
   (Action.toggleShortcuts, sc.toggleShortcuts),
   (Action.toggleStats, sc.toggleStats)]

/-- The dispatch step of `handleKeyDown` on a non-suppressed key event: the
first branch whose binding matches runs; `none` when no branch matches. -/
def handleKeyDown (sc : ShortcutMap) (key : List Char) : Option Action :=
  ((dispatchChain sc).find? (fun ab => matchesKey key ab.2)).map Prod.fst

/-- The actions of the dispatch chain in declaration order. -/
def actionOrder : List Action :=
  [Action.togglePlay, Action.reset, Action.prevWord, Action.nextWord,
   Action.incFontSize, Action.decFontSize, Action.incSpeed, Action.decSpeed,
   Action.toggleFullscreenApp, Action.toggleFullscreenReader,
   Action.incBrightness, Action.decBrightness, Action.nextFont,
   Action.nextColor, Action.incGlow, Action.decGlow, Action.toggleBold,
   Action.toggleLang, Action.nextMode, Action.toggleEdit, Action.clearText,
   Action.togglePomodoro, Action.toggleLibrary, Action.toggleShortcuts,
   Action.toggleStats]

/-- A sample key-binding map (a binding-capture fixture: the space key
deliberately bound to both `togglePlay` and `reset`). -/
def sampleShortcuts : ShortcutMap :=
  ⟨[' '], ['p'], ['n'], ['+'], ['-'], [']'], ['['], ['f'], ['r'],
   ['b'], ['v'], [' '], ['t'], ['c'], ['g'], ['h'], ['o'], ['l'],
   ['m'], ['e'], ['x'], ['q'], ['y'], ['k'], ['s']⟩

end VisualReading

namespace VisualReading

/-- C1: with the advancing flag true, one scheduler tick increments the
cursor by exactly 1 when `cursor < len-1`, and otherwise leaves the cursor
unchanged and clears the flag; consequently, for every in-range index `i`,
`seek i` followed by one tick yields `cursor = min (i+1) (len-1)`, the tick
stopping playback when `i = len-1`. -/
theorem tick_advances_or_stops (len : Nat) (s : PlayState)
    (hplay : s.isPlaying = true) :
    (s.currentIndex < (len : Int) - 1 →
      tick len s = { s with currentIndex := s.currentIndex + 1 }) ∧
    (¬ s.currentIndex < (len : Int) - 1 →
      (tick len s).currentIndex = s.currentIndex ∧
      (tick len s).isPlaying = false) ∧
    (∀ i : Int, -1 ≤ i → i ≤ (len : Int) - 1 →
      (tick len (handleSeek i s)).currentIndex = min (i + 1) ((len : Int) - 1) ∧
      (i = (len : Int) - 1 → (tick len (handleSeek i s)).isPlaying = false)) := by
  refine ⟨?_, ?_, ?_⟩
  · intro h
    simp only [tick]
    rw [if_neg (by omega)]
  · intro h
    simp only [tick]
    rw [if_pos (by omega)]
    exact ⟨rfl, rfl⟩
  · intro i h1 h2
    constructor
    · simp only [tick, handleSeek]
      by_cases h : i ≥ (len : Int) - 1
      · rw [if_pos h]
        simp only
        omega
      · rw [if_neg h]
        simp only
        omega
    · intro hend
      simp only [tick, handleSeek]
      rw [if_pos (by omega)]

/-- Concrete instantiation of `tick_advances_or_stops` at `len = 5`,
cursor `2`, seek index `4`. -/
theorem tick_advances_or_stops_witness :
    ((2 : Int) < (5 : Int) - 1 →
      tick 5 ⟨true, 2⟩ = { isPlaying := true, currentIndex := 2 + 1 }) ∧
    (¬ (2 : Int) < (5 : Int) - 1 →
      (tick 5 ⟨true, 2⟩).currentIndex = 2 ∧
      (tick 5 ⟨true, 2⟩).isPlaying = false) ∧
    (∀ i : Int, -1 ≤ i → i ≤ (5 : Int) - 1 →
      (tick 5 (handleSeek i ⟨true, 2⟩)).currentIndex = min (i + 1) ((5 : Int) - 1) ∧
      (i = (5 : Int) - 1 → (tick 5 (handleSeek i ⟨true, 2⟩)).isPlaying = false)) :=
  tick_advances_or_stops 5 ⟨true, 2⟩ rfl

/-- C3 counterexample: `handleSeek` stores the raw index with no clamping;
seeking to `500` with 3 words leaves the cursor at `500`, while the claimed
clamp to `[-1, len-1]` would give `2`. -/
theorem handleSeek_not_clamped_cex :
    (handleSeek 500 { isPlaying := false, currentIndex := 0 }).currentIndex = 500 ∧
    specSeekClamp 3 500 = 2 ∧ (500 : Int) ≠ 2 := by
  refine ⟨rfl, by decide, by decide⟩

/-- C3 (amended): `handleSeek i` sets the cursor to exactly `i`, with no
clamping, and never changes the advancing flag; the progress-bar seek path
(`handleSeekInternal`) only ever passes an in-range index in
`[0, totalWords-1]`. -/
theorem handleSeek_direct_flag_preserved (s : PlayState) (i : Int) :
    (handleSeek i s).currentIndex = i ∧
    (handleSeek i s).isPlaying = s.isPlaying ∧
    (∀ (clientX rectLeft width : ℚ) (totalWords : Nat) (res : Int),
      handleSeekInternal clientX rectLeft width totalWords = some res →
      0 ≤ res ∧ res ≤ (totalWords : Int) - 1) := by
  refine ⟨rfl, rfl, ?_⟩
  intro clientX rectLeft width totalWords res h
  simp only [handleSeekInternal] at h
  by_cases hg : totalWords ≤ 1
  · rw [if_pos hg] at h
    exact absurd h (by simp)
  · rw [if_neg hg] at h
    simp only [Option.some.injEq] at h
    subst h
    have h2 : (2 : Nat) ≤ totalWords := by omega
    set p := max 0 (min 1 (1 - (clientX - rectLeft) / width)) with hp
    have hp0 : (0 : ℚ) ≤ p := le_max_left 0 _
    have hp1 : p ≤ 1 := by
      rw [hp]
      rcases le_or_lt (min 1 (1 - (clientX - rectLeft) / width)) 0 with h' | h'
      · rw [max_eq_left h']
        norm_num
      · rw [max_eq_right h'.le]
        exact min_le_left _ _
    have hlen : (0 : ℚ) ≤ (totalWords : ℚ) - 1 := by
      have : (1 : ℚ) ≤ (totalWords : ℚ) := by exact_mod_cast Nat.one_le_iff_ne_zero.mpr (by omega)
      linarith
    constructor
    · exact Int.floor_nonneg.mpr (mul_nonneg hp0 hlen)
    · have hle : p * ((totalWords : ℚ) - 1) ≤ (totalWords : ℚ) - 1 := by
        calc p * ((totalWords : ℚ) - 1) ≤ 1 * ((totalWords : ℚ) - 1) :=
              mul_le_mul_of_nonneg_right hp1 hlen
          _ = (totalWords : ℚ) - 1 := one_mul _
      have := Int.floor_le_floor hle
      have heq : ⌊(totalWords : ℚ) - 1⌋ = (totalWords : Int) - 1 := by
        rw [show ((totalWords : ℚ) - 1) = ((totalWords : Int) - 1 : Int) by push_cast; ring]
        exact Int.floor_intCast _
      omega

/-- Concrete instantiation of `handleSeek_direct_flag_preserved`:
seeking to index 7 from a paused state, and a progress-bar click at the
midpoint of a 100-wide bar with 5 words. -/
theorem handleSeek_direct_flag_preserved_witness :
    (handleSeek 7 ⟨false, 0⟩).currentIndex = 7 ∧
    (handleSeek 7 ⟨false, 0⟩).isPlaying = (⟨false, 0⟩ : PlayState).isPlaying ∧
    (∀ (clientX rectLeft width : ℚ) (totalWords : Nat) (res : Int),
      handleSeekInternal clientX rectLeft width totalWords = some res →
      0 ≤ res ∧ res ≤ (totalWords : Int) - 1) :=
  handleSeek_direct_flag_preserved ⟨false, 0⟩ 7

/-- C4: requesting playback start leaves the flag advancing when it already
was, and from the reader view with the cursor at or past the last index —
in particular from the stopped-at-end state — it resets the cursor to `-1`
and begins advancing, so that the first subsequent tick (which exists when
the text is nonempty) lands on cursor `0`. -/
theorem requestPlayback_start_round_trip (len : Nat) (mode : AppMode)
    (s : PlayState) :
    (s.isPlaying = true → (requestPlayback len true mode s).2.isPlaying = true) ∧
    (mode = AppMode.read → s.currentIndex ≥ (len : Int) - 1 →
      (requestPlayback len true mode s).2 =
        { isPlaying := true, currentIndex := -1 } ∧
      (1 ≤ len →
        (tick len (requestPlayback len true mode s).2).currentIndex = 0)) := by
  constructor
  · intro hplay
    simp only [requestPlayback, handleReset, if_true]
    by_cases h1 : mode = AppMode.edit
    · simp [h1]
    · by_cases h2 : s.currentIndex ≥ (len : Int) - 1
      · simp [h1, h2]
      · simp [h1, h2]
  · intro hmode hend
    subst hmode
    have hne : ¬ (AppMode.read = AppMode.edit) := by decide
    simp only [requestPlayback, handleReset, if_true]
    rw [if_neg hne, if_pos hend]
    refine ⟨rfl, ?_⟩
    intro hlen
    simp only [tick]
    rw [if_neg (show ¬ (({ isPlaying := true, currentIndex := -1 } : PlayState).currentIndex ≥ (len : Int) - 1) by
      simp only
      omega)]
    norm_num

/-- Concrete instantiation of `requestPlayback_start_round_trip`: 5 words,
reader view — the round trip from the stopped-at-end state `⟨false, 4⟩`
(reset to `-1`, begin advancing, first tick lands on `0`), and the flag
no-op from an advancing state `⟨true, 2⟩`. -/
theorem requestPlayback_start_round_trip_witness :
    (requestPlayback 5 true AppMode.read ⟨true, 2⟩).2.isPlaying = true ∧
    (requestPlayback 5 true AppMode.read ⟨false, 4⟩).2 =
      { isPlaying := true, currentIndex := -1 } ∧
    (tick 5 (requestPlayback 5 true AppMode.read ⟨false, 4⟩).2).currentIndex = 0 :=
  ⟨(requestPlayback_start_round_trip 5 AppMode.read ⟨true, 2⟩).1 rfl,
   ((requestPlayback_start_round_trip 5 AppMode.read ⟨false, 4⟩).2 rfl
     (by decide)).1,
   ((requestPlayback_start_round_trip 5 AppMode.read ⟨false, 4⟩).2 rfl
     (by decide)).2 (by decide)⟩

end VisualReading

namespace VisualReading

theorem sep_head_dropWhile {p : Char → Bool} {l : List Char} {d : Char}
    {u : List Char} (h : l.dropWhile (fun x => !p x) = d :: u) :
    p d = true := by
  induction l with
  | nil => simp at h
  | cons c rest ih =>
    rw [List.dropWhile_cons] at h
    by_cases hc : p c
    · simp only [hc, Bool.not_true, if_neg Bool.false_ne_true,
        List.cons.injEq] at h
      exact h.1 ▸ hc
    · rw [if_pos (by simp [hc])] at h
      exact ih h

theorem runsOf_allSep {p : Char → Bool} {t : List Char}
    (h : ∀ c ∈ t, p c = true) : runsOf p t = [] := by
  induction t with
  | nil => exact runsOf.eq_1 p
  | cons c rest ih =>
    rw [runsOf.eq_2, if_pos (h c (List.mem_cons_self c rest))]
    exact ih (fun d hd => h d (List.mem_cons_of_mem c hd))

theorem runsOf_dropWhile_sep (p : Char → Bool) (l : List Char) :
    runsOf p (l.dropWhile p) = runsOf p l := by
  induction l with
  | nil => rfl
  | cons c rest ih =>
    rw [List.dropWhile_cons]
    by_cases h : p c
    · rw [if_pos h, ih, runsOf.eq_2, if_pos h]
    · rw [if_neg h]

theorem takeWhile_append_allSep {p : Char → Bool} {t : List Char}
    (h : ∀ c ∈ t, p c = true) (l : List Char) :
    (l ++ t).takeWhile (fun d => !p d) = l.takeWhile (fun d => !p d) := by
  induction l with
  | nil =>
    simp only [List.nil_append, List.takeWhile_nil]
    cases t with
    | nil => rfl
    | cons d u =>
      rw [List.takeWhile_cons]
      simp [h d (List.mem_cons_self d u)]
  | cons c rest ih =>
    simp only [List.cons_append]
    rw [List.takeWhile_cons, List.takeWhile_cons]
    by_cases hc : p c
    · simp [hc]
    · simp only [hc, Bool.not_false, if_pos]
      rw [ih]

theorem runsOf_append_allSep {p : Char → Bool} {t : List Char}
    (h : ∀ c ∈ t, p c = true) (l : List Char) :
    runsOf p (l ++ t) = runsOf p l ∧
    runsOf p ((l ++ t).dropWhile (fun d => !p d)) =
      runsOf p (l.dropWhile (fun d => !p d)) := by
  induction l with
  | nil =>
    rw [List.nil_append, List.dropWhile_nil, runsOf.eq_1]
    constructor
    · exact runsOf_allSep h
    · cases t with
      | nil =>
        rw [List.dropWhile_nil]
        exact runsOf.eq_1 p
      | cons d u =>
        rw [List.dropWhile_cons]
        have hd := h d (List.mem_cons_self d u)
        simp only [hd, Bool.not_true, if_neg Bool.false_ne_true]
        exact runsOf_allSep h
  | cons c rest ih =>
    by_cases hc : p c
    · constructor
      · simp only [List.cons_append]
        rw [runsOf.eq_2, if_pos hc, runsOf.eq_2, if_pos hc]
        exact ih.1
      · simp only [List.cons_append]
        rw [List.dropWhile_cons, List.dropWhile_cons]
        simp only [hc, Bool.not_true, if_neg Bool.false_ne_true]
        rw [runsOf.eq_2, if_pos hc, runsOf.eq_2, if_pos hc]
        exact ih.1
    · constructor
      · simp only [List.cons_append]
        rw [runsOf.eq_2, if_neg hc, runsOf.eq_2, if_neg hc]
        rw [takeWhile_append_allSep h rest]
        rw [ih.2]
      · simp only [List.cons_append]
        rw [List.dropWhile_cons, List.dropWhile_cons]
        simp only [hc, Bool.not_false, if_pos]
        exact ih.2

theorem splitSepRunsAux_lastSep (p : Char → Bool) (s : List Char) :
    splitSepRunsAux p s [] true =
      splitSepRunsAux p (s.dropWhile p) [] false := by
  induction s with
  | nil => rfl
  | cons c rest ih =>
    rw [List.dropWhile_cons]
    by_cases hc : p c
    · rw [if_pos hc]
      simp only [splitSepRunsAux, hc, if_pos, if_true]
      exact ih
    · rw [if_neg hc]
      simp only [splitSepRunsAux, hc]
      rw [if_neg (by simp [hc]), if_neg (by simp [hc])]

theorem splitSepRunsAux_false (p : Char → Bool) (s : List Char) :
    ∀ acc, splitSepRunsAux p s acc false =
      (acc.reverse ++ s.takeWhile (fun d => !p d)) ::
        splitTail p (s.dropWhile (fun d => !p d)) := by
  induction s with
  | nil =>
    intro acc
    simp [splitSepRunsAux, splitTail]
  | cons c rest ih =>
    intro acc
    by_cases hc : p c
    · simp only [splitSepRunsAux, hc, if_true]
      rw [if_neg Bool.false_ne_true]
      rw [List.takeWhile_cons, List.dropWhile_cons]
      simp only [hc, Bool.not_true, if_neg Bool.false_ne_true]
      rw [splitSepRunsAux_lastSep, List.append_nil]
      rfl
    · simp only [splitSepRunsAux, hc]
      rw [if_neg (by simp [hc])]
      rw [ih (c :: acc)]
      rw [List.takeWhile_cons, List.dropWhile_cons]
      simp only [hc, Bool.not_false, if_pos]
      rw [List.reverse_cons, List.append_assoc]
      rfl

theorem filter_splitSepRunsAux (p : Char → Bool) :
    ∀ (n : Nat) (s : List Char), s.length ≤ n →
    (splitSepRunsAux p s [] false).filter (fun w => decide (0 < w.length)) =
      runsOf p s := by
  intro n
  induction n with
  | zero =>
    intro s hs
    have hnil : s = [] := List.length_eq_zero.mp (Nat.le_zero.mp hs)
    subst hnil
    exact (runsOf.eq_1 p).symm
  | succ n ih =>
    intro s hs
    cases s with
    | nil => exact (runsOf.eq_1 p).symm
    | cons c rest =>
      simp only [List.length_cons, Nat.succ_le_succ_iff] at hs
      by_cases hc : p c
      · simp only [splitSepRunsAux, hc, if_true]
        rw [if_neg Bool.false_ne_true]
        rw [splitSepRunsAux_lastSep]
        rw [List.filter_cons]
        rw [if_neg (by simp)]
        have hlen : (rest.dropWhile p).length ≤ n :=
          le_trans (List.dropWhile_sublist (l := rest) (p := p)).length_le hs
        rw [ih _ hlen, runsOf_dropWhile_sep, runsOf.eq_2, if_pos hc]
      · simp only [splitSepRunsAux, hc]
        rw [if_neg (by simp [hc])]
        rw [splitSepRunsAux_false]
        rw [List.filter_cons]
        rw [if_pos (by simp)]
        rw [runsOf.eq_2, if_neg hc]
        simp only [List.reverse_cons, List.reverse_nil, List.nil_append,
          List.cons_append, List.nil_append]
        congr 1
        generalize hu : rest.dropWhile (fun d => !p d) = u
        cases u with
        | nil => simp [splitTail, runsOf.eq_1]
        | cons d u' =>
          have hd : p d = true := sep_head_dropWhile hu
          simp only [splitTail]
          have hlen : (u'.dropWhile p).length ≤ n := by
            have h1 : (u'.dropWhile p).length ≤ u'.length :=
              (List.dropWhile_sublist (l := u') (p := p)).length_le
            have h2 : (d :: u').length ≤ rest.length := by
              rw [← hu]
              exact (List.dropWhile_sublist (l := rest)
                (p := fun d => !p d)).length_le
            simp only [List.length_cons] at h2
            omega
          rw [ih _ hlen, runsOf_dropWhile_sep, runsOf.eq_2, if_pos hd]

theorem runsOf_mem_ne_nil (p : Char → Bool) :
    ∀ (n : Nat) (s : List Char), s.length ≤ n →
    ∀ w ∈ runsOf p s, w ≠ [] ∧ ∀ c ∈ w, p c = false := by
  intro n
  induction n with
  | zero =>
    intro s hs
    have hnil : s = [] := List.length_eq_zero.mp (Nat.le_zero.mp hs)
    subst hnil
    rw [runsOf.eq_1]
    intro w hw
    simp at hw
  | succ n ih =>
    intro s hs
    cases s with
    | nil =>
      rw [runsOf.eq_1]
      intro w hw
      simp at hw
    | cons c rest =>
      simp only [List.length_cons, Nat.succ_le_succ_iff] at hs
      rw [runsOf.eq_2]
      by_cases hc : p c
      · rw [if_pos hc]
        exact ih rest hs
      · rw [if_neg hc]
        intro w hw
        rcases List.mem_cons.mp hw with h | h
        · subst h
          refine ⟨by simp, ?_⟩
          intro x hx
          rcases List.mem_cons.mp hx with h | h
          · subst h
            exact Bool.not_eq_true _ ▸ (by simpa using hc)
          · have := List.mem_takeWhile_imp h
            simpa using this
        · have hlen : (rest.dropWhile (fun d => !p d)).length ≤ n :=
            le_trans (List.dropWhile_sublist (l := rest)
              (p := fun d => !p d)).length_le hs
          exact ih _ hlen w h

theorem runsOf_jsTrim (s : List Char) :
    runsOf jsWhitespace (jsTrim s) = runsOf jsWhitespace s := by
  unfold jsTrim
  set u := s.dropWhile jsWhitespace with hu
  have hsplit : u.reverse.takeWhile jsWhitespace ++
      u.reverse.dropWhile jsWhitespace = u.reverse :=
    List.takeWhile_append_dropWhile jsWhitespace u.reverse
  have hdecomp : u = (u.reverse.dropWhile jsWhitespace).reverse ++
      (u.reverse.takeWhile jsWhitespace).reverse := by
    have := congrArg List.reverse hsplit
    rw [List.reverse_append, List.reverse_reverse] at this
    exact this.symm
  have hws : ∀ c ∈ (u.reverse.takeWhile jsWhitespace).reverse,
      jsWhitespace c = true := by
    intro c hc
    rw [List.mem_reverse] at hc
    exact List.mem_takeWhile_imp hc
  calc runsOf jsWhitespace (u.reverse.dropWhile jsWhitespace).reverse
      = runsOf jsWhitespace ((u.reverse.dropWhile jsWhitespace).reverse ++
          (u.reverse.takeWhile jsWhitespace).reverse) :=
        ((runsOf_append_allSep hws _).1).symm
    _ = runsOf jsWhitespace u := by rw [← hdecomp]
    _ = runsOf jsWhitespace s := by rw [hu]; exact runsOf_dropWhile_sep _ s

/-- C2: the tokenizer (`words`: trim, split on whitespace runs, drop empty
chunks) returns exactly the ordered sequence of maximal non-whitespace runs
of the input: no empty tokens, original order, tokens taken verbatim
(no normalization), and no token contains a whitespace character. -/
theorem words_eq_maximalRuns (s : List Char) :
    words s = maximalRuns s ∧
    (∀ w ∈ words s, w ≠ []) ∧
    (∀ w ∈ words s, ∀ c ∈ w, jsWhitespace c = false) := by
  have hmain : words s = runsOf jsWhitespace s := by
    unfold words splitWsRuns
    rw [filter_splitSepRunsAux jsWhitespace (jsTrim s).length (jsTrim s) le_rfl]
    exact runsOf_jsTrim s
  refine ⟨hmain, ?_, ?_⟩
  · intro w hw
    rw [hmain] at hw
    exact (runsOf_mem_ne_nil jsWhitespace s.length s le_rfl w hw).1
  · intro w hw
    rw [hmain] at hw
    exact (runsOf_mem_ne_nil jsWhitespace s.length s le_rfl w hw).2

end VisualReading

namespace VisualReading

/-- C5: on an advancing-to-stopped transition with a recorded start, the
recorder computes `wordsRead = max 0 (cursor - startIndex)` and appends
exactly one `ReadingSession` carrying the rate in effect at stop time iff
`wordsRead > 0` (a zero-word run appends nothing); the log is append-only
(the old sessions stay as an unchanged prefix); and a stopped-to-advancing
transition captures the cursor as `startIndex` without touching the log. -/
theorem recordEffect_stop_appends_iff (now t0 : Nat) (cursor wpm : Int)
    (r : RecorderState) (h : r.sessionStartTime = some t0) :
    (0 < max 0 (cursor - r.startWordIndex) →
      (recordEffect false now cursor wpm r).sessions =
        r.sessions ++ [⟨now, now, ((now : ℚ) - (t0 : ℚ)) / 1000,
          max 0 (cursor - r.startWordIndex), wpm⟩]) ∧
    (max 0 (cursor - r.startWordIndex) = 0 →
      (recordEffect false now cursor wpm r).sessions = r.sessions) ∧
    (∃ tail, (recordEffect false now cursor wpm r).sessions =
      r.sessions ++ tail ∧ tail.length ≤ 1) ∧
    (∀ startNow : Nat,
      (recordEffect true startNow cursor wpm r).startWordIndex = cursor ∧
      (recordEffect true startNow cursor wpm r).sessions = r.sessions) := by
  refine ⟨?_, ?_, ?_, ?_⟩
  · intro hpos
    simp only [recordEffect, h]
    rw [if_neg Bool.false_ne_true, if_pos hpos]
  · intro hzero
    simp only [recordEffect, h]
    rw [if_neg Bool.false_ne_true, if_neg (by omega)]
  · by_cases hpos : 0 < max 0 (cursor - r.startWordIndex)
    · refine ⟨[⟨now, now, ((now : ℚ) - (t0 : ℚ)) / 1000,
        max 0 (cursor - r.startWordIndex), wpm⟩], ?_, by simp⟩
      simp only [recordEffect, h]
      rw [if_neg Bool.false_ne_true, if_pos hpos]
    · refine ⟨[], ?_, by simp⟩
      simp only [recordEffect, h]
      rw [if_neg Bool.false_ne_true, if_neg hpos, List.append_nil]
  · intro startNow
    constructor
    · simp [recordEffect]
    · simp [recordEffect]

/-- Concrete instantiation of `recordEffect_stop_appends_iff`: a run
started at cursor `-1`, ms-epoch 1000, stopped at cursor `4`, rate 600. -/
theorem recordEffect_stop_appends_iff_witness :
    (0 < max 0 ((4 : Int) - (⟨some 1000, -1, []⟩ : RecorderState).startWordIndex) →
      (recordEffect false 2000 4 600 ⟨some 1000, -1, []⟩).sessions =
        (⟨some 1000, -1, []⟩ : RecorderState).sessions ++
          [⟨2000, 2000, ((2000 : ℚ) - (1000 : ℚ)) / 1000,
            max 0 ((4 : Int) - (⟨some 1000, -1, []⟩ : RecorderState).startWordIndex),
            600⟩]) ∧
    (max 0 ((4 : Int) - (⟨some 1000, -1, []⟩ : RecorderState).startWordIndex) = 0 →
      (recordEffect false 2000 4 600 ⟨some 1000, -1, []⟩).sessions =
        (⟨some 1000, -1, []⟩ : RecorderState).sessions) ∧
    (∃ tail, (recordEffect false 2000 4 600 ⟨some 1000, -1, []⟩).sessions =
      (⟨some 1000, -1, []⟩ : RecorderState).sessions ++ tail ∧ tail.length ≤ 1) ∧
    (∀ startNow : Nat,
      (recordEffect true startNow 4 600 ⟨some 1000, -1, []⟩).startWordIndex = 4 ∧
      (recordEffect true startNow 4 600 ⟨some 1000, -1, []⟩).sessions =
        (⟨some 1000, -1, []⟩ : RecorderState).sessions) :=
  recordEffect_stop_appends_iff 2000 1000 4 600 ⟨some 1000, -1, []⟩ rfl

/-- C6: when the focus-timer countdown completes (`timeLeft = 0`) in the
focus or custom phase, the machine raises exactly one stop-playback signal,
switches the phase to the short break, and the break countdown ends up
running with `timeLeft` reset to the short-break duration. -/
theorem handleTimerComplete_focus_to_break (d : PomodoroDurations)
    (p : PomoState)
    (hmode : p.mode = PomodoroMode.focus ∨ p.mode = PomodoroMode.custom)
    (hdone : p.timeLeft = 0) :
    (handleTimerComplete d p).1.mode = PomodoroMode.short ∧
    (handleTimerComplete d p).1.isActive = true ∧
    (handleTimerComplete d p).1.timeLeft = d.short ∧
    (handleTimerComplete d p).2 = [PlaybackSignal.stop] := by
  simp only [handleTimerComplete, if_pos hmode]
  simp [modeChangeReset, syncPlayback, modeDuration]

/-- Concrete instantiation of `handleTimerComplete_focus_to_break` at the
default durations, focus phase, countdown at 0. -/
theorem handleTimerComplete_focus_to_break_witness :
    (handleTimerComplete defaultMODES ⟨PomodoroMode.focus, 0, true⟩).1.mode = PomodoroMode.short ∧
    (handleTimerComplete defaultMODES ⟨PomodoroMode.focus, 0, true⟩).1.isActive = true ∧
    (handleTimerComplete defaultMODES ⟨PomodoroMode.focus, 0, true⟩).1.timeLeft = defaultMODES.short ∧
    (handleTimerComplete defaultMODES ⟨PomodoroMode.focus, 0, true⟩).2 = [PlaybackSignal.stop] :=
  handleTimerComplete_focus_to_break defaultMODES ⟨PomodoroMode.focus, 0, true⟩
    (Or.inl rfl) rfl

/-- C7 counterexample: the input `"5.7"` does not denote a positive
integer number of minutes, yet the submission is accepted —
`parseInt("5.7") = 5` — and the custom duration becomes 300 s instead of
retaining the prior 1800 s. -/
theorem handleCustomTimeSubmit_noninteger_cex :
    denotesPosIntMinutes ['5', '.', '7'] = false ∧
    handleCustomTimeSubmit ['5', '.', '7'] defaultMODES =
      ({ defaultMODES with custom := 300 }, true) ∧
    defaultMODES.custom = 1800 := by
  refine ⟨by decide, by decide, rfl⟩

/-- C7 (amended): a submitted custom duration is accepted iff
`parseInt` of the input yields a value `> 0` — so an input whose leading
integer prefix is positive is accepted as that prefix (e.g. `"5.7"` as 5
minutes), stored converted to seconds; on `NaN` or a non-positive value
the submission is rejected and the prior duration is retained unchanged. -/
theorem handleCustomTimeSubmit_parseInt_gate (input : List Char)
    (d : PomodoroDurations) :
    (∀ m : Int, jsParseInt input = some m → 0 < m →
      handleCustomTimeSubmit input d = ({ d with custom := m.toNat * 60 }, true)) ∧
    ((jsParseInt input = none ∨ (∃ m : Int, jsParseInt input = some m ∧ m ≤ 0)) →
      handleCustomTimeSubmit input d = (d, false)) := by
  constructor
  · intro m hm hpos
    simp [handleCustomTimeSubmit, hm, hpos]
  · rintro (hn | ⟨m, hm, hle⟩)
    · simp [handleCustomTimeSubmit, hn]
    · simp [handleCustomTimeSubmit, hm, not_lt.mpr hle]

/-- Concrete instantiation of `handleCustomTimeSubmit_parseInt_gate`:
`"25"` accepted as 1500 s; `"-5"` and `"0"` rejected with the default
1800 s retained. -/
theorem handleCustomTimeSubmit_parseInt_gate_witness :
    handleCustomTimeSubmit ['2', '5'] defaultMODES =
      ({ defaultMODES with custom := (25 : Int).toNat * 60 }, true) ∧
    handleCustomTimeSubmit ['-', '5'] defaultMODES = (defaultMODES, false) ∧
    handleCustomTimeSubmit ['0'] defaultMODES = (defaultMODES, false) :=
  ⟨(handleCustomTimeSubmit_parseInt_gate ['2', '5'] defaultMODES).1 25 (by decide) (by decide),
   (handleCustomTimeSubmit_parseInt_gate ['-', '5'] defaultMODES).2
     (Or.inr ⟨-5, by decide, by decide⟩),
   (handleCustomTimeSubmit_parseInt_gate ['0'] defaultMODES).2
     (Or.inr ⟨0, by decide, by decide⟩)⟩

/-- C8: the playback rate stays in `[60, 1000]` under every
rate-mutating operation: the numeric input clamps every out-of-range value
to the nearer bound and passes in-range values through, the slider hands
through values its element already constrains to `[60, 1000]`, and the
`incSpeed`/`decSpeed` shortcuts preserve the bounds; no operation
rejects a value. -/
theorem wpm_rate_bounds (v wpm : Int) (hlo : 60 ≤ wpm) (hhi : wpm ≤ 1000) :
    (60 ≤ handleWpmInputChange v ∧ handleWpmInputChange v ≤ 1000) ∧
    (v < 60 → handleWpmInputChange v = 60) ∧
    (1000 < v → handleWpmInputChange v = 1000) ∧
    (60 ≤ v → v ≤ 1000 → handleWpmInputChange v = v ∧
      60 ≤ handleWpmChange v ∧ handleWpmChange v ≤ 1000) ∧
    (60 ≤ incSpeed wpm ∧ incSpeed wpm ≤ 1000) ∧
    (60 ≤ decSpeed wpm ∧ decSpeed wpm ≤ 1000) := by
  have hchar : ∀ u : Int, handleWpmInputChange u = max 60 (min u 1000) := by
    intro u
    simp only [handleWpmInputChange]
    split_ifs <;> omega
  simp only [hchar, handleWpmChange, incSpeed, decSpeed]
  refine ⟨⟨?_, ?_⟩, ?_, ?_, ?_, ⟨?_, ?_⟩, ⟨?_, ?_⟩⟩ <;> (intros; omega)

/-- Concrete instantiation of `wpm_rate_bounds`: requesting 40 clamps to
60 and requesting 5000 clamps to 1000, from a current rate of 600. -/
theorem wpm_rate_bounds_witness :
    ((60 ≤ handleWpmInputChange 40 ∧ handleWpmInputChange 40 ≤ 1000) ∧
    ((40 : Int) < 60 → handleWpmInputChange 40 = 60) ∧
    ((1000 : Int) < 40 → handleWpmInputChange 40 = 1000) ∧
    ((60 : Int) ≤ 40 → (40 : Int) ≤ 1000 → handleWpmInputChange 40 = 40 ∧
      60 ≤ handleWpmChange 40 ∧ handleWpmChange 40 ≤ 1000) ∧
    (60 ≤ incSpeed 600 ∧ incSpeed 600 ≤ 1000) ∧
    (60 ≤ decSpeed 600 ∧ decSpeed 600 ≤ 1000)) ∧
    ((1000 : Int) < 5000 → handleWpmInputChange 5000 = 1000) :=
  ⟨wpm_rate_bounds 40 600 (by decide) (by decide),
   (wpm_rate_bounds 5000 600 (by decide) (by decide)).2.2.1⟩

theorem countSeconds_cons_second (es : List SleepEv) :
    countSeconds (SleepEv.second :: es) = countSeconds es + 1 := by
  simp [countSeconds, List.filter_cons]

theorem countSeconds_cons_setPlay (b : Bool) (es : List SleepEv) :
    countSeconds (SleepEv.setPlay b :: es) = countSeconds es := by
  simp [countSeconds, List.filter_cons]

theorem sleepRun_off (len : Nat) (mode : AppMode) :
    ∀ (evs : List SleepEv) (st : SleepSystem), st.sleep = none →
      (sleepRun len mode evs st).sleep = none ∧
      (sleepRun len mode evs st).stops = st.stops := by
  intro evs
  induction evs with
  | nil => intro st h; exact ⟨h, rfl⟩
  | cons e es ih =>
    intro st h
    cases e with
    | second =>
      have hstep : sleepStep len mode SleepEv.second st = { st with sleep := none } := by
        simp [sleepStep, sleepTick, h]
      rw [sleepRun, hstep]
      exact ih _ rfl
    | setPlay b =>
      have hstep : (sleepStep len mode (SleepEv.setPlay b) st).sleep = none ∧
          (sleepStep len mode (SleepEv.setPlay b) st).stops = st.stops := by
        simp [sleepStep, h]
      rw [sleepRun]
      obtain ⟨h1, h2⟩ := ih (sleepStep len mode (SleepEv.setPlay b) st) hstep.1
      exact ⟨h1, h2.trans hstep.2⟩

theorem sleepRun_countdown (len : Nat) (mode : AppMode) :
    ∀ (evs : List SleepEv) (j : Nat) (st : SleepSystem),
      st.sleep = some j → 1 ≤ j →
      (countSeconds evs < j →
        (sleepRun len mode evs st).sleep = some (j - countSeconds evs) ∧
        (sleepRun len mode evs st).stops = st.stops) ∧
      (j ≤ countSeconds evs →
        (sleepRun len mode evs st).sleep = none ∧
        (sleepRun len mode evs st).stops = st.stops + 1) := by
  intro evs
  induction evs with
  | nil =>
    intro j st hst hj
    constructor
    · intro _
      refine ⟨?_, rfl⟩
      show st.sleep = some (j - countSeconds [])
      rw [hst]
      simp [countSeconds]
    · intro hk
      simp only [countSeconds, List.filter_nil, List.length_nil] at hk
      omega
  | cons e es ih =>
    intro j st hst hj
    cases e with
    | second =>
      rw [sleepRun]
      by_cases hj1 : j = 1
      · have htick : sleepTick st.sleep = (none, true) := by
          rw [hst, hj1]
          simp [sleepTick]
        have hstep : sleepStep len mode SleepEv.second st =
            { sleep := none,
              play := (requestPlayback len false mode st.play).2,
              stops := st.stops + 1 } := by
          simp [sleepStep, htick]
        rw [hstep]
        obtain ⟨h1, h2⟩ := sleepRun_off len mode es
          { sleep := none,
            play := (requestPlayback len false mode st.play).2,
            stops := st.stops + 1 } rfl
        constructor
        · intro hk
          rw [countSeconds_cons_second] at hk
          omega
        · intro _
          exact ⟨h1, h2⟩
      · have hj2 : 2 ≤ j := by omega
        have htick : sleepTick st.sleep = (some (j - 1), false) := by
          rw [hst]
          simp only [sleepTick]
          rw [if_neg (by omega)]
        have hstep : sleepStep len mode SleepEv.second st =
            { st with sleep := some (j - 1) } := by
          simp [sleepStep, htick]
        rw [hstep]
        have ihr := ih (j - 1) { st with sleep := some (j - 1) } rfl (by omega)
        constructor
        · intro hk
          rw [countSeconds_cons_second] at hk
          obtain ⟨h1, h2⟩ := ihr.1 (by omega)
          refine ⟨?_, h2⟩
          rw [h1, countSeconds_cons_second]
          congr 1
          omega
        · intro hk
          rw [countSeconds_cons_second] at hk
          exact ihr.2 (by omega)
    | setPlay b =>
      rw [sleepRun]
      have hstep : (sleepStep len mode (SleepEv.setPlay b) st).sleep = st.sleep ∧
          (sleepStep len mode (SleepEv.setPlay b) st).stops = st.stops := by
        simp [sleepStep]
      have ihr := ih j (sleepStep len mode (SleepEv.setPlay b) st)
        (hstep.1.trans hst) hj
      rw [countSeconds_cons_setPlay]
      constructor
      · intro hk
        obtain ⟨h1, h2⟩ := ihr.1 hk
        exact ⟨h1, h2.trans hstep.2⟩
      · intro hk
        obtain ⟨h1, h2⟩ := ihr.2 hk
        exact ⟨h1, by rw [h2, hstep.2]⟩

/-- C9: a sleep timer set to `m` minutes counts down one second per tick
regardless of interleaved pause/resume requests (which neither reset nor
cancel it): after `k < m*60` ticks the countdown reads `m*60 - k` seconds
with no forced stop yet, once `m*60` ticks have elapsed it has fired
exactly one forced stop and reports "off"; the tick that fires leaves
playback stopped; and re-invoking `set` replaces any previous countdown
outright (`set` ignores the previous state). -/
theorem sleepTimer_one_shot (len : Nat) (mode : AppMode) (m : Nat)
    (hm : 1 ≤ m) (evs : List SleepEv) (p0 : PlayState) (prev : Option Nat) :
    (countSeconds evs < m * 60 →
      (sleepRun len mode evs ⟨sleepSet (some m) prev, p0, 0⟩).sleep =
        some (m * 60 - countSeconds evs) ∧
      (sleepRun len mode evs ⟨sleepSet (some m) prev, p0, 0⟩).stops = 0) ∧
    (m * 60 ≤ countSeconds evs →
      (sleepRun len mode evs ⟨sleepSet (some m) prev, p0, 0⟩).sleep = none ∧
      (sleepRun len mode evs ⟨sleepSet (some m) prev, p0, 0⟩).stops = 1) ∧
    (∀ st : SleepSystem, st.sleep = some 1 →
      (sleepStep len mode SleepEv.second st).sleep = none ∧
      (sleepStep len mode SleepEv.second st).play.isPlaying = false) ∧
    (∀ (m' : Nat) (prev' : Option Nat), sleepSet (some m') prev' = some (m' * 60)) ∧
    (∀ prev' : Option Nat, sleepSet none prev' = none) := by
  have hset : sleepSet (some m) prev = some (m * 60) := rfl
  have h := sleepRun_countdown len mode evs (m * 60)
    ⟨sleepSet (some m) prev, p0, 0⟩ hset (by omega)
  refine ⟨h.1, h.2, ?_, fun m' prev' => rfl, fun prev' => rfl⟩
  intro st hst
  have htick : sleepTick st.sleep = (none, true) := by
    rw [hst]
    simp [sleepTick]
  have hstep : sleepStep len mode SleepEv.second st =
      { sleep := none,
        play := (requestPlayback len false mode st.play).2,
        stops := st.stops + 1 } := by
    simp [sleepStep, htick]
  rw [hstep]
  refine ⟨rfl, ?_⟩
  simp [requestPlayback]

/-- Concrete instantiation of `sleepTimer_one_shot`: a 1-minute timer
over the event list tick, pause, tick. -/
theorem sleepTimer_one_shot_witness :
    (countSeconds [SleepEv.second, SleepEv.setPlay false, SleepEv.second] < 1 * 60 →
      (sleepRun 5 AppMode.read [SleepEv.second, SleepEv.setPlay false, SleepEv.second]
        ⟨sleepSet (some 1) none, ⟨true, 2⟩, 0⟩).sleep =
        some (1 * 60 - countSeconds [SleepEv.second, SleepEv.setPlay false, SleepEv.second]) ∧
      (sleepRun 5 AppMode.read [SleepEv.second, SleepEv.setPlay false, SleepEv.second]
        ⟨sleepSet (some 1) none, ⟨true, 2⟩, 0⟩).stops = 0) ∧
    (1 * 60 ≤ countSeconds [SleepEv.second, SleepEv.setPlay false, SleepEv.second] →
      (sleepRun 5 AppMode.read [SleepEv.second, SleepEv.setPlay false, SleepEv.second]
        ⟨sleepSet (some 1) none, ⟨true, 2⟩, 0⟩).sleep = none ∧
      (sleepRun 5 AppMode.read [SleepEv.second, SleepEv.setPlay false, SleepEv.second]
        ⟨sleepSet (some 1) none, ⟨true, 2⟩, 0⟩).stops = 1) ∧
    (∀ st : SleepSystem, st.sleep = some 1 →
      (sleepStep 5 AppMode.read SleepEv.second st).sleep = none ∧
      (sleepStep 5 AppMode.read SleepEv.second st).play.isPlaying = false) ∧
    (∀ (m' : Nat) (prev' : Option Nat), sleepSet (some m') prev' = some (m' * 60)) ∧
    (∀ prev' : Option Nat, sleepSet none prev' = none) :=
  sleepTimer_one_shot 5 AppMode.read 1 (by decide)
    [SleepEv.second, SleepEv.setPlay false, SleepEv.second] ⟨true, 2⟩ none


theorem find?_first_index {α : Type} (p : α → Bool) :
    ∀ (l : List α) (i : Nat) (hi : i < l.length), p (l.get ⟨i, hi⟩) = true →
    ∃ (e : Nat) (he : e < l.length), e ≤ i ∧ p (l.get ⟨e, he⟩) = true ∧
      l.find? p = some (l.get ⟨e, he⟩) ∧
      ∀ (j : Nat) (hj : j < l.length), j < e → p (l.get ⟨j, hj⟩) = false := by
  intro l
  induction l with
  | nil =>
    intro i hi
    exact absurd hi (by simp)
  | cons x xs ih =>
    intro i hi hp
    by_cases hx : p x
    · refine ⟨0, by simp, Nat.zero_le i, ?_, ?_, ?_⟩
      · simpa using hx
      · simp [List.find?_cons, hx]
      · intro j hj hj0
        omega
    · cases i with
      | zero =>
        exact absurd (by simpa using hp) (by simpa using hx)
      | succ n =>
        have hn : n < xs.length := by
          simpa [List.length_cons] using hi
        have hp2 : p (xs.get ⟨n, hn⟩) = true := by
          rw [List.get_cons_succ] at hp
          exact hp
        obtain ⟨e, he, hle, hpe, hfind, hbefore⟩ := ih n hn hp2
        refine ⟨e + 1, by simpa [List.length_cons] using Nat.succ_lt_succ he,
          Nat.succ_le_succ hle, ?_, ?_, ?_⟩
        · rw [List.get_cons_succ]
          exact hpe
        · rw [List.find?_cons]
          have hx2 : p x = false := by simpa using hx
          rw [hx2, hfind, List.get_cons_succ]
        · intro j hj hjlt
          cases j with
          | zero => simpa using hx
          | succ k =>
            have hk : k < xs.length := by
              simpa [List.length_cons] using hj
            have := hbefore k hk (by omega)
            rw [List.get_cons_succ]
            exact this

/-- C10: on a dispatched key event at most one action executes, and the
dispatch chain tests bindings in declaration order (`togglePlay` first,
`toggleStats` last): whenever the binding at position `i` matches, the
executed action is the one at the earliest matching position `e ≤ i`, every
binding before `e` fails to match, and no action bound later than `e` ever
executes. -/
theorem handleKeyDown_first_binding_wins (sc : ShortcutMap) (key : List Char) :
    (∀ a b : Action, handleKeyDown sc key = some a →
      handleKeyDown sc key = some b → a = b) ∧
    (dispatchChain sc).map Prod.fst = actionOrder ∧
    actionOrder.Nodup ∧
    actionOrder.head? = some Action.togglePlay ∧
    actionOrder.getLast? = some Action.toggleStats ∧
    (∀ (i : Nat) (hi : i < (dispatchChain sc).length),
      matchesKey key ((dispatchChain sc).get ⟨i, hi⟩).2 = true →
      ∃ (e : Nat) (he : e < (dispatchChain sc).length), e ≤ i ∧
        matchesKey key ((dispatchChain sc).get ⟨e, he⟩).2 = true ∧
        handleKeyDown sc key = some ((dispatchChain sc).get ⟨e, he⟩).1 ∧
        (∀ (j : Nat) (hj : j < (dispatchChain sc).length), j < e →
          matchesKey key ((dispatchChain sc).get ⟨j, hj⟩).2 = false) ∧
        (∀ (j : Nat) (hj : j < (dispatchChain sc).length), e < j →
          handleKeyDown sc key ≠ some ((dispatchChain sc).get ⟨j, hj⟩).1)) := by
  have hmap : (dispatchChain sc).map Prod.fst = actionOrder := rfl
  have hnodup : actionOrder.Nodup := by decide
  refine ⟨?_, hmap, hnodup, rfl, rfl, ?_⟩
  · intro a b ha hb
    rw [ha] at hb
    exact Option.some.inj hb
  · intro i hi hp
    obtain ⟨e, he, hle, hpe, hfind, hbefore⟩ :=
      find?_first_index (fun ab => matchesKey key ab.2) (dispatchChain sc) i hi hp
    refine ⟨e, he, hle, hpe, ?_, hbefore, ?_⟩
    · unfold handleKeyDown
      rw [hfind]
      rfl
    · intro j hj hej hcontra
      unfold handleKeyDown at hcontra
      rw [hfind] at hcontra
      simp only [Option.map_some'] at hcontra
      replace hcontra := Option.some.inj hcontra
      have hnodup2 : ((dispatchChain sc).map Prod.fst).Nodup := by
        rw [hmap]; exact hnodup
      have hlenmap : ((dispatchChain sc).map Prod.fst).length =
          (dispatchChain sc).length := List.length_map _ _
      have hge : ((dispatchChain sc).map Prod.fst).get ⟨e, by omega⟩ =
          ((dispatchChain sc).get ⟨e, he⟩).1 := by
        rw [List.get_map]
      have hgj : ((dispatchChain sc).map Prod.fst).get ⟨j, by omega⟩ =
          ((dispatchChain sc).get ⟨j, hj⟩).1 := by
        rw [List.get_map]
      have heqget : ((dispatchChain sc).map Prod.fst).get ⟨e, by omega⟩ =
          ((dispatchChain sc).map Prod.fst).get ⟨j, by omega⟩ := by
        rw [hge, hgj, hcontra]
      have := (hnodup2.get_inj_iff.mp heqget)
      have : e = j := by
        have h2 := congrArg Fin.val this
        simpa using h2
      omega


/-- C10 witness: the concrete map above, dispatching the space key. -/
theorem handleKeyDown_first_binding_wins_witness :
    (∀ a b : Action, handleKeyDown sampleShortcuts [' '] = some a →
      handleKeyDown sampleShortcuts [' '] = some b → a = b) ∧
    (dispatchChain sampleShortcuts).map Prod.fst = actionOrder ∧
    actionOrder.Nodup ∧
    actionOrder.head? = some Action.togglePlay ∧
    actionOrder.getLast? = some Action.toggleStats ∧
    (∀ (i : Nat) (hi : i < (dispatchChain sampleShortcuts).length),
      matchesKey [' '] ((dispatchChain sampleShortcuts).get ⟨i, hi⟩).2 = true →
      ∃ (e : Nat) (he : e < (dispatchChain sampleShortcuts).length), e ≤ i ∧
        matchesKey [' '] ((dispatchChain sampleShortcuts).get ⟨e, he⟩).2 = true ∧
        handleKeyDown sampleShortcuts [' '] =
          some ((dispatchChain sampleShortcuts).get ⟨e, he⟩).1 ∧
        (∀ (j : Nat) (hj : j < (dispatchChain sampleShortcuts).length), j < e →
          matchesKey [' '] ((dispatchChain sampleShortcuts).get ⟨j, hj⟩).2 = false) ∧
        (∀ (j : Nat) (hj : j < (dispatchChain sampleShortcuts).length), e < j →
          handleKeyDown sampleShortcuts [' '] ≠
            some ((dispatchChain sampleShortcuts).get ⟨j, hj⟩).1)) :=
  handleKeyDown_first_binding_wins sampleShortcuts [' ']

end VisualReading
